import Mathlib

/-!
Verification development for the xml_pull_parser repository
(ambiguity-resolution / feature-aggregation / streaming-batch pipeline).

The embedding follows the third (authoritative) pipeline script in
src/src/polars_examples.py (lines 375-650), src/src/xgboost.py, and
src/src/partitioner.py.

Modelling conventions:
  * timestamps are natural numbers counting minutes since an epoch;
    truncation to the hour is subtraction of the remainder mod 60;
  * weights and feature values are rationals;
  * spatial cells and measurement types are coded as naturals;
  * polars `unique` is `List.dedup` (keep first occurrence);
  * polars `rolling_sum(span)` keeps its default `min_periods = span`,
    so the first `span - 1` output rows are `none` (null).
-/

namespace PolarsPipeline

/-- One raw observation row of the flattened input schema, as read by the
global lazy scan: it may carry a location candidate (when
`location_weight` is present) and/or a measurement candidate (when
`measurement_weight` is present). -/
structure RawRow where
  obs_id : ℕ
  h3_res3 : ℕ
  location_lat : ℚ
  location_lon : ℚ
  timestamp : ℕ
  location_weight : Option ℚ
  measurement_type : Option ℕ
  measurement_weight : Option ℚ
deriving DecidableEq

/-- Location-side row after `lf_loc`'s filter/select/unique:
(obs_id, h3_res3, location_weight, lat, lon, timestamp string). -/
structure LocRow where
  obs : ℕ
  cell : ℕ
  lw : ℚ
  lat : ℚ
  lon : ℚ
  ts : ℕ
deriving DecidableEq

/-- Measurement-side row after `lf_meas`'s filter/select/unique:
(obs_id, measurement_type, measurement_weight). -/
structure MeasRow where
  obs : ℕ
  ty : Option ℕ
  mw : ℚ
deriving DecidableEq

/-- A disambiguated atomic signal row:
(h3_res3, timestamp truncated to the hour, measurement_type, signal_weight). -/
structure Atomic where
  cell : ℕ
  ts : ℕ
  ty : Option ℕ
  w : ℚ
deriving DecidableEq

/-- `lf.filter(location_weight.is_not_null()).select([...]).unique()`. -/
def lf_loc (rows : List RawRow) : List LocRow :=
  ((rows.filter (fun r => r.location_weight.isSome)).map
    (fun r => ⟨r.obs_id, r.h3_res3, r.location_weight.getD 0,
               r.location_lat, r.location_lon, r.timestamp⟩)).dedup

/-- `lf.filter(measurement_weight.is_not_null()).select([...]).unique()`. -/
def lf_meas (rows : List RawRow) : List MeasRow :=
  ((rows.filter (fun r => r.measurement_weight.isSome)).map
    (fun r => ⟨r.obs_id, r.measurement_type, r.measurement_weight.getD 0⟩)).dedup

/-- The inner join `lf_loc.join(lf_meas, on="obs_id", how="inner")`:
every location row paired with every measurement row of the same obs_id. -/
def joinedPairs (rows : List RawRow) : List (LocRow × MeasRow) :=
  (lf_loc rows).flatMap
    (fun l => ((lf_meas rows).filter (fun m => m.obs == l.obs)).map (fun m => (l, m)))

/-- `dt.truncate("1h")` on a minute-valued timestamp. -/
def truncHour (t : ℕ) : ℕ := t - t % 60

/-- One joined pair turned into an atomic row: the timestamp is the
location side's, truncated to the hour; the signal weight is
`location_weight * measurement_weight`. -/
def mkAtomic (l : LocRow) (m : MeasRow) : Atomic :=
  ⟨l.cell, truncHour l.ts, m.ty, l.lw * m.mw⟩

/-- `lf_atomic`: join, weight product, projection to the four columns,
then a final `.unique()` that drops exact duplicate atomic rows. -/
def atomicTable (rows : List RawRow) : List Atomic :=
  ((joinedPairs rows).map (fun p => mkAtomic p.1 p.2)).dedup

/-- The global measurement vocabulary: distinct non-null measurement types. -/
def measurement_types (rows : List RawRow) : List ℕ :=
  (rows.filterMap (fun r => r.measurement_type)).dedup

/-- Floor a timestamp to its hour (`replace(minute=0, second=0, ...)`). -/
def floorHour (t : ℕ) : ℕ := t - t % 60

/-- Ceiling to the next hour boundary, as the script computes it:
unchanged when already hour-aligned, else floor of `t + 1h`. -/
def ceilHour (t : ℕ) : ℕ := if t % 60 = 0 then t else floorHour t + 60

/-- Minimum observation timestamp over all raw rows. -/
def tsMin (rows : List RawRow) : ℕ := ((rows.map (fun r => r.timestamp)).min?).getD 0

/-- Maximum observation timestamp over all raw rows. -/
def tsMax (rows : List RawRow) : ℕ := ((rows.map (fun r => r.timestamp)).max?).getD 0

/-- `pl.date_range(start, end, "1h", closed="left")` for hour-aligned
bounds: the hours `a, a+60, ...` strictly below `b`. -/
def hourRange (a b : ℕ) : List ℕ :=
  (List.range ((b - a) / 60)).map (fun k => a + 60 * k)

/-- The shared global hourly grid `global_hours`, spanning
`[floorHour(min_ts), ceilHour(max_ts))`. -/
def globalHourGrid (rows : List RawRow) : List ℕ :=
  hourRange (floorHour (tsMin rows)) (ceilHour (tsMax rows))

/-- Insert a timestamp into an ascending list, keeping it ascending. -/
def insertAsc (x : ℕ) : List ℕ → List ℕ
  | [] => [x]
  | y :: ys => if x ≤ y then x :: y :: ys else y :: insertAsc x ys

/-- Ascending sort (insertion sort) of a timestamp column. -/
def sortAsc (l : List ℕ) : List ℕ := l.foldr insertAsc []

/-- Distinct timestamps of a cell's atomic rows: the pivot index,
then `.sort("timestamp")`. -/
def pivotTs (df : List Atomic) : List ℕ :=
  sortAsc ((df.map (fun a => a.ts)).dedup)

/-- Distinct measurement types of a cell's atomic rows: the pivot's
value columns, in order of first appearance. -/
def pivotCols (df : List Atomic) : List (Option ℕ) :=
  (df.map (fun a => a.ty)).dedup

/-- The pivot cell at (timestamp, type): `aggregate_function="sum"`,
null when no atomic row exists for the combination. -/
def pivotVal (df : List Atomic) (t : ℕ) (ty : Option ℕ) : Option ℚ :=
  let s := df.filter (fun a => a.ts == t && a.ty == ty)
  if s.isEmpty then none else some ((s.map (fun a => a.w)).sum)

/-- The left join `global_hours.join(pivoted, on="timestamp", how="left")`
restricted to the timestamp column: each grid hour appears once per
matching pivot row, or once with nulls when unmatched. -/
def alignedTs (grid : List ℕ) (pts : List ℕ) : List ℕ :=
  grid.flatMap (fun t => if pts.count t = 0 then [t] else List.replicate (pts.count t) t)

/-- The value of a raw measurement-type column at a grid hour after the
left join and `fill_null(0.0)`. -/
def alignedVal (df : List Atomic) (t : ℕ) (ty : Option ℕ) : ℚ :=
  (pivotVal df t ty).getD 0

/-- Column list after the vocabulary-completion loop: observed pivot
columns, then each vocabulary type still missing, as a 0.0 literal. -/
def completedCols (vocab : List ℕ) (df : List Atomic) : List (Option ℕ) :=
  pivotCols df ++ (vocab.filter (fun mt => ! decide (some mt ∈ pivotCols df))).map some

/-- The configured window spans (the values of the `WINDOWS` dict,
in iteration order 1h, 6h, 12h, 24h). -/
def WINDOWS : List ℕ := [1, 6, 12, 24]

/-- Which of the two rolling features a column holds. -/
inductive FKind
  | sum
  | cnt
deriving DecidableEq

/-- Identifier of a rolling feature column `mt__sum_label` / `mt__count_label`. -/
structure FeatCol where
  mt : ℕ
  span : ℕ
  kind : FKind
deriving DecidableEq

/-- The feature columns appended by the windows loop, in append order:
for each span, all sum columns (vocabulary order), then all count columns. -/
def featColsFor (vocab : List ℕ) : List FeatCol :=
  WINDOWS.flatMap (fun s =>
    vocab.map (fun mt => ⟨mt, s, FKind.sum⟩) ++ vocab.map (fun mt => ⟨mt, s, FKind.cnt⟩))

/-- polars `rolling_sum(span)` with its default `min_periods = span`:
row `i` is null while fewer than `span` rows are available, else the sum
of rows `i - span + 1 .. i`. -/
def rollingSum (span : ℕ) (xs : List ℚ) : List (Option ℚ) :=
  (List.range xs.length).map (fun i =>
    if i + 1 < span then none else some (((xs.drop (i + 1 - span)).take span).sum))

/-- The strict-positivity indicator `(col > 0).cast(Int32)`, as a rational. -/
def indicator (v : ℚ) : ℚ := if 0 < v then 1 else 0

/-- The raw (post-alignment, post-completion) column of one measurement
type, listed in table row order. -/
def rawColumn (df : List Atomic) (grid : List ℕ) (mt : ℕ) : List ℚ :=
  (alignedTs grid (pivotTs df)).map (fun t => alignedVal df t (some mt))

/-- Values of one rolling feature column over the table's rows. -/
def featVal (df : List Atomic) (grid : List ℕ) : FeatCol → List (Option ℚ)
  | ⟨mt, span, FKind.sum⟩ => rollingSum span (rawColumn df grid mt)
  | ⟨mt, span, FKind.cnt⟩ => rollingSum span ((rawColumn df grid mt).map indicator)

/-- A column of the final per-cell table (besides timestamp and h3_res3,
which are tracked as separate fields): either a surviving raw
measurement column or a rolling feature column. -/
inductive Col
  | raw (ty : Option ℕ)
  | feat (f : FeatCol)
deriving DecidableEq

/-- Columns of the final table after `drop(measurement_types)` and the
final reorder: surviving raw columns (those not named by the vocabulary),
then the feature columns. -/
def finalCols (vocab : List ℕ) (df : List Atomic) : List Col :=
  ((completedCols vocab df).filter (fun ty =>
      match ty with
      | some mt => ! decide (mt ∈ vocab)
      | none => true)).map Col.raw
  ++ (featColsFor vocab).map Col.feat

/-- The per-cell feature table: h3_res3 id, timestamp column, remaining
column list, and each column's values in row order. -/
structure CellTable where
  cellId : ℕ
  timestamps : List ℕ
  cols : List Col
  colVals : Col → List (Option ℚ)

/-- `build_features_for_cell`: pivot wide, align to the global grid,
complete the vocabulary, compute rolling windows, drop raw columns,
re-attach the cell id. -/
def build_features_for_cell (grid : List ℕ) (vocab : List ℕ) (df : List Atomic) :
    CellTable :=
  { cellId := ((df.head?).map (fun a => a.cell)).getD 0
  , timestamps := alignedTs grid (pivotTs df)
  , cols := finalCols vocab df
  , colVals := fun c =>
      match c with
      | Col.raw ty => (alignedTs grid (pivotTs df)).map (fun t => some (alignedVal df t ty))
      | Col.feat f => featVal df grid f }

/-- `atomic_df.group_by("h3_res3").map_groups(build_features_for_cell)`:
one table per distinct cell appearing in the atomic table. -/
def features_all_cells (grid : List ℕ) (vocab : List ℕ) (atomic : List Atomic) :
    List CellTable :=
  ((atomic.map (fun a => a.cell)).dedup).map
    (fun c => build_features_for_cell grid vocab (atomic.filter (fun a => a.cell == c)))

end PolarsPipeline

namespace XgbStream

/-- One stored feature-table row as re-read by the trainer script:
timestamp, label, then the sum-feature and count-feature columns (the
name scan keeps all `__sum_` columns, then all `__count_` columns). -/
structure SRow where
  ts : ℕ
  label : ℚ
  sums : List ℚ
  cnts : List ℚ
deriving DecidableEq

/-- `time_slice`: keep rows with timestamp in `[start, end)`. -/
def time_slice (df : List SRow) (s e : ℕ) : List SRow :=
  df.filter (fun r => s ≤ r.ts && r.ts < e)

/-- A yielded batch: the feature matrix X (one row per kept table row,
sum columns then count columns) and the label vector y. -/
def mkBatch (df : List SRow) : List (List ℚ) × List ℚ :=
  (df.map (fun r => r.sums ++ r.cnts), df.map (fun r => r.label))

/-- `batch_generator(cell_ids, start, end)`: for each cell in order, load
its stored table, time-slice it, skip it when empty, else yield one
batch; the pass ends when the cell list is exhausted. -/
def batch_generator (store : ℕ → List SRow) (cells : List ℕ) (s e : ℕ) :
    List (List (List ℚ) × List ℚ) :=
  cells.flatMap (fun c =>
    let df := time_slice (store c) s e
    if df.isEmpty then [] else [mkBatch df])

/-- Explicit iterator state for the multi-pass protocol: the full cell
list (kept for reset), the cells not yet visited this pass, and the
time-slice bounds. -/
structure BatchIter where
  cells : List ℕ
  remaining : List ℕ
  lo : ℕ
  hi : ℕ

/-- A fresh iterator at the start of its first pass. -/
def freshIter (cells : List ℕ) (lo hi : ℕ) : BatchIter :=
  ⟨cells, cells, lo, hi⟩

/-- `reset()`: restart the traversal from the same full cell list. -/
def resetIter (it : BatchIter) : BatchIter :=
  { it with remaining := it.cells }

/-- Advance through the remaining cells to the next non-empty slice. -/
def nextAux (store : ℕ → List SRow) (lo hi : ℕ) :
    List ℕ → Option ((List (List ℚ) × List ℚ) × List ℕ)
  | [] => none
  | c :: rest =>
      let df := time_slice (store c) lo hi
      if df.isEmpty then nextAux store lo hi rest else some (mkBatch df, rest)

/-- `next()`: the next batch of the current pass, if any, and the
successor state. -/
def nextBatch (store : ℕ → List SRow) (it : BatchIter) :
    Option ((List (List ℚ) × List ℚ) × BatchIter) :=
  (nextAux store it.lo it.hi it.remaining).map
    (fun p => (p.1, { it with remaining := p.2 }))

/-- Consume the rest of the current pass to a list of batches. -/
def passFrom (store : ℕ → List SRow) (lo hi : ℕ) : List ℕ → List (List (List ℚ) × List ℚ)
  | [] => []
  | c :: rest =>
      let df := time_slice (store c) lo hi
      if df.isEmpty then passFrom store lo hi rest else mkBatch df :: passFrom store lo hi rest

/-- A full pass from the iterator's current state. -/
def runPass (store : ℕ → List SRow) (it : BatchIter) : List (List (List ℚ) × List ℚ) :=
  passFrom store it.lo it.hi it.remaining

end XgbStream

namespace Partitioner

/-- `FlatRecord`: the partition-relevant fields, plus one payload field
standing for the remaining ~80 columns. -/
structure FlatRecord where
  year : Option ℕ
  month : Option ℕ
  day : Option ℕ
  h3_cell : Option String
  payload : ℕ
deriving DecidableEq

/-- The partition key of one record: `unwrap_or_default()` turns a
missing year/month/day into 0, a missing h3_cell into "unknown". -/
def recKey (r : FlatRecord) : ℕ × ℕ × ℕ × String :=
  (r.year.getD 0, r.month.getD 0, r.day.getD 0, r.h3_cell.getD "unknown")

/-- One loop step: push the record onto its partition's vector
(`entry(key).or_default().push(rec)`). -/
def pushRecord (m : ℕ × ℕ × ℕ × String → List FlatRecord) (r : FlatRecord) :
    ℕ × ℕ × ℕ × String → List FlatRecord :=
  fun k => if k = recKey r then m k ++ [r] else m k

/-- `partition_records`: fold every record into the hash map, starting
from the empty map. -/
def partition_records (records : List FlatRecord) :
    ℕ × ℕ × ℕ × String → List FlatRecord :=
  records.foldl pushRecord (fun _ => [])

end Partitioner

namespace PolarsPipeline

/-! ### Concrete fixtures -/

/-- An 8-hour hourly grid (hours 0..7, in minutes). -/
def gridEx : List ℕ := [0, 60, 120, 180, 240, 300, 360, 420]

/-- Atomic rows giving the raw "temp" series 0,0,3,0,0,0,2,0 over `gridEx`
(measurement type 0 stands for "temp"). -/
def dfEx : List Atomic := [⟨0, 120, some 0, 3⟩, ⟨0, 360, some 0, 2⟩]

/-- The spec's resolver example: obs_id 7 with two location candidates,
(cell 0, weight 3/5) and (cell 1, weight 2/5), and one measurement
candidate (type 0, weight 1), all at hour 60. -/
def rowsEx5 : List RawRow :=
  [ ⟨7, 0, 0, 0, 60, some (3/5), none, none⟩
  , ⟨7, 1, 0, 0, 60, some (2/5), none, none⟩
  , ⟨7, 0, 0, 0, 60, none, some 0, some 1⟩ ]

/-- Two location-candidate rows for obs_id 1 that agree in every selected
field except latitude, plus one measurement candidate: the two joined
pairs project to exactly duplicate atomic rows. -/
def rowsEx4 : List RawRow :=
  [ ⟨1, 0, 0, 0, 60, some (1/2), none, none⟩
  , ⟨1, 0, 1, 0, 60, some (1/2), none, none⟩
  , ⟨1, 0, 0, 0, 60, none, some 0, some 1⟩ ]

/-- Two raw rows at minutes 30 and 90: the global grid floors 30 to hour 0
and ceils 90 to 120, giving the two grid hours 0 and 60. -/
def rowsEx7 : List RawRow :=
  [ ⟨1, 0, 0, 0, 30, some 1, none, none⟩
  , ⟨1, 0, 0, 0, 90, none, some 0, some 1⟩ ]

/-- A one-cell atomic fixture: cell 0 has a row, cell 1 has none. -/
def atomicEx3 : List Atomic := [⟨0, 60, some 0, 1⟩]

/-- A cell that observed only the first of two vocabulary types. -/
def dfEx6 : List Atomic := [⟨0, 0, some 0, 1⟩]

end PolarsPipeline

namespace XgbStream

/-- A stored-table fixture whose single row (timestamp 100) lies outside
the queried window [0, 10). -/
def storeEmpty : ℕ → List SRow := fun _ => [⟨100, 0, [], []⟩]

/-- A stored-table fixture with one in-window row per cell. -/
def storeEx : ℕ → List SRow := fun c => [⟨5, 1, [c + 1, 2], [3]⟩]

/-- A partially consumed two-cell iterator over `storeEx`. -/
def iterEx : BatchIter := ⟨[0, 1], [1], 0, 10⟩

end XgbStream

namespace Partitioner

/-- A record missing its year, day and h3_cell. -/
def recEx : FlatRecord := ⟨none, some 2, none, none, 7⟩

end Partitioner

namespace PolarsPipeline

/-! ### Helper lemmas -/

/-- A contiguous slice of a list sums to the sum of its entries by index. -/
theorem sum_drop_take (xs : List ℚ) :
    ∀ (b a : ℕ), a + b ≤ xs.length →
      ((xs.drop a).take b).sum = ∑ j ∈ Finset.Ico a (a + b), xs.getD j 0 := by
  intro b
  induction b with
  | zero =>
      intro a _
      simp
  | succ n ih =>
      intro a hab
      have ha : a < xs.length := by omega
      have hbnd : a + 1 + n = a + (n + 1) := by omega
      calc ((xs.drop a).take (n + 1)).sum
          = ((xs[a] :: xs.drop (a + 1)).take (n + 1)).sum := by
            rw [← List.drop_eq_getElem_cons ha]
        _ = xs[a] + ((xs.drop (a + 1)).take n).sum := by
            rw [List.take_succ_cons, List.sum_cons]
        _ = xs.getD a 0 + ∑ j ∈ Finset.Ico (a + 1) (a + 1 + n), xs.getD j 0 := by
            rw [ih (a + 1) (by omega), List.getD_eq_getElem xs 0 ha]
        _ = ∑ j ∈ Finset.Ico a (a + (n + 1)), xs.getD j 0 := by
            rw [hbnd, Finset.sum_eq_sum_Ico_succ_bot (show a < a + (n + 1) by omega)]

/-- Row `i` of `rolling_sum span`, once at least `span` rows are
available, is the trailing-window sum over rows `i - span + 1 .. i`. -/
theorem rollingSum_getD (span : ℕ) (xs : List ℚ) (i : ℕ)
    (hspan : span ≤ i + 1) (hi : i < xs.length) :
    (rollingSum span xs).getD i none
      = some (∑ j ∈ Finset.Icc (i + 1 - span) i, xs.getD j 0) := by
  have hlen : i < (rollingSum span xs).length := by
    simpa [rollingSum] using hi
  rw [List.getD_eq_getElem _ none hlen]
  unfold rollingSum
  rw [List.getElem_map]
  rw [List.getElem_range]
  have hnot : ¬ i + 1 < span := by omega
  rw [if_neg hnot]
  have hsub : i + 1 - span + span = i + 1 := by omega
  have := sum_drop_take xs span (i + 1 - span) (by omega)
  rw [this, hsub, ← Nat.succ_eq_add_one, Nat.Ico_succ_right]

/-- Row `i` of the presence-count rolling feature, once at least `span`
rows are available, counts the strictly positive window entries. -/
theorem rollingCount_getD (span : ℕ) (xs : List ℚ) (i : ℕ)
    (hspan : span ≤ i + 1) (hi : i < xs.length) :
    (rollingSum span (xs.map indicator)).getD i none
      = some (((Finset.Icc (i + 1 - span) i).filter
          (fun j => 0 < xs.getD j 0)).card : ℚ) := by
  have hlen : i < (xs.map indicator).length := by simpa using hi
  rw [rollingSum_getD span (xs.map indicator) i hspan hlen]
  congr 1
  have hmap : ∀ j : ℕ, (xs.map indicator).getD j 0 = indicator (xs.getD j 0) := by
    intro j
    have h0 : indicator 0 = 0 := by simp [indicator]
    calc (xs.map indicator).getD j 0
        = (xs.map indicator).getD j (indicator 0) := by rw [h0]
      _ = indicator (xs.getD j 0) := List.getD_map xs 0 indicator
  calc (∑ j ∈ Finset.Icc (i + 1 - span) i, (xs.map indicator).getD j 0)
      = ∑ j ∈ Finset.Icc (i + 1 - span) i, indicator (xs.getD j 0) := by
        exact Finset.sum_congr rfl (fun j _ => hmap j)
    _ = ∑ j ∈ Finset.Icc (i + 1 - span) i,
          (if 0 < xs.getD j 0 then (1 : ℚ) else 0) := rfl
    _ = (((Finset.Icc (i + 1 - span) i).filter (fun j => 0 < xs.getD j 0)).card : ℚ) :=
        Finset.sum_boole _ _

/-- Insertion produces a permutation of pushing onto the front. -/
theorem insertAsc_perm (x : ℕ) : ∀ l : List ℕ, (insertAsc x l).Perm (x :: l) := by
  intro l
  induction l with
  | nil => exact List.Perm.refl _
  | cons y ys ih =>
      unfold insertAsc
      by_cases h : x ≤ y
      · rw [if_pos h]
      · rw [if_neg h]
        exact (ih.cons y).trans (List.Perm.swap x y ys)

/-- Sorting permutes the input list. -/
theorem sortAsc_perm : ∀ l : List ℕ, (sortAsc l).Perm l := by
  intro l
  induction l with
  | nil => exact List.Perm.refl _
  | cons y ys ih =>
      exact (insertAsc_perm y (sortAsc ys)).trans (ih.cons y)

/-- The pivot index is duplicate-free. -/
theorem pivotTs_nodup (df : List Atomic) : (pivotTs df).Nodup := by
  unfold pivotTs
  exact ((sortAsc_perm ((df.map (fun a => a.ts)).dedup)).symm).nodup (List.nodup_dedup _)

/-- Left-joining a duplicate-free right-hand timestamp column onto the
grid reproduces the grid's timestamp column. -/
theorem alignedTs_of_nodup (grid : List ℕ) (pts : List ℕ) (h : pts.Nodup) :
    alignedTs grid pts = grid := by
  unfold alignedTs
  induction grid with
  | nil => rfl
  | cons t g ih =>
      rw [List.flatMap_cons, ih]
      have hc : pts.count t ≤ 1 := List.nodup_iff_count_le_one.mp h t
      rcases Nat.lt_or_ge (pts.count t) 1 with h0 | h1
      · have : pts.count t = 0 := by omega
        simp [this]
      · have : pts.count t = 1 := by omega
        simp [this]

/-- The aligned timestamp column of every built cell table is the grid. -/
theorem build_timestamps (grid : List ℕ) (vocab : List ℕ) (df : List Atomic) :
    (build_features_for_cell grid vocab df).timestamps = grid :=
  alignedTs_of_nodup grid (pivotTs df) (pivotTs_nodup df)

/-- The pivot-plus-fill value at (timestamp, type) is the plain sum of
matching atomic weights (zero when no row matches). -/
theorem alignedVal_eq_sum (df : List Atomic) (t : ℕ) (ty : Option ℕ) :
    alignedVal df t ty
      = ((df.filter (fun a => a.ts == t && a.ty == ty)).map (fun a => a.w)).sum := by
  unfold alignedVal pivotVal
  rcases h : (df.filter (fun a => a.ts == t && a.ty == ty)).isEmpty with hf | ht
  · simp only [h]
    rfl
  · have : df.filter (fun a => a.ts == t && a.ty == ty) = [] := by
      simpa [List.isEmpty_iff] using h
    simp [h, this]

/-- Membership in the resolver join: one pair per location row and
measurement row sharing an obs_id. -/
theorem mem_joinedPairs (rows : List RawRow) (p : LocRow × MeasRow) :
    p ∈ joinedPairs rows ↔
      (p.1 ∈ lf_loc rows ∧ p.2 ∈ lf_meas rows ∧ p.2.obs = p.1.obs) := by
  unfold joinedPairs
  rw [List.mem_flatMap]
  constructor
  · rintro ⟨l, hl, hp⟩
    rcases List.mem_map.mp hp with ⟨m, hm, rfl⟩
    rcases List.mem_filter.mp hm with ⟨hm2, hobs⟩
    exact ⟨hl, hm2, by simpa using hobs⟩
  · rintro ⟨h1, h2, h3⟩
    refine ⟨p.1, h1, List.mem_map.mpr ⟨p.2, List.mem_filter.mpr ⟨h2, by simpa using h3⟩, rfl⟩⟩

/-- Raw columns have one value per grid row. -/
theorem rawColumn_length (df : List Atomic) (grid : List ℕ) (mt : ℕ) :
    (rawColumn df grid mt).length = grid.length := by
  unfold rawColumn
  rw [alignedTs_of_nodup grid (pivotTs df) (pivotTs_nodup df)]
  simp

/-- Raw column entries are non-negative whenever all signal weights are. -/
theorem rawColumn_nonneg (df : List Atomic) (grid : List ℕ) (mt : ℕ)
    (h : ∀ a ∈ df, 0 ≤ a.w) : ∀ x ∈ rawColumn df grid mt, 0 ≤ x := by
  intro x hx
  unfold rawColumn at hx
  rcases List.mem_map.mp hx with ⟨t, _, rfl⟩
  rw [alignedVal_eq_sum]
  apply List.sum_nonneg
  intro v hv
  rcases List.mem_map.mp hv with ⟨a, ha, rfl⟩
  exact h a (List.mem_of_mem_filter ha)

/-- Out-of-range or in-range, `getD` of a non-negative list is non-negative. -/
theorem getD_nonneg (l : List ℚ) (h : ∀ x ∈ l, 0 ≤ x) (j : ℕ) : 0 ≤ l.getD j 0 := by
  rcases Nat.lt_or_ge j l.length with hj | hj
  · rw [List.getD_eq_getElem l 0 hj]
    exact h _ (l.getElem_mem hj)
  · rw [List.getD_eq_default l 0 (by omega)]

/-- The sum-feature column of a built table is the rolling sum of the
corresponding raw column. -/
theorem build_sum_col (grid : List ℕ) (vocab : List ℕ) (df : List Atomic)
    (mt span : ℕ) :
    (build_features_for_cell grid vocab df).colVals (Col.feat ⟨mt, span, FKind.sum⟩)
      = rollingSum span (rawColumn df grid mt) := rfl

/-- The count-feature column of a built table is the rolling sum of the
indicator of the corresponding raw column. -/
theorem build_cnt_col (grid : List ℕ) (vocab : List ℕ) (df : List Atomic)
    (mt span : ℕ) :
    (build_features_for_cell grid vocab df).colVals (Col.feat ⟨mt, span, FKind.cnt⟩)
      = rollingSum span ((rawColumn df grid mt).map indicator) := rfl

/-- Every hour in `hourRange` of aligned bounds is hour-aligned. -/
theorem floorHour_mod (t : ℕ) : floorHour t % 60 = 0 := by
  unfold floorHour
  omega

/-- The ceiling bound is hour-aligned. -/
theorem ceilHour_mod (t : ℕ) : ceilHour t % 60 = 0 := by
  unfold ceilHour floorHour
  by_cases h : t % 60 = 0
  · rw [if_pos h]
    exact h
  · rw [if_neg h]
    omega

/-- Consecutive grid hours differ by exactly one hour. -/
theorem chain'_hourRange (a b : ℕ) :
    List.Chain' (fun x y => y = x + 60) (hourRange a b) := by
  unfold hourRange
  rw [List.chain'_map]
  cases h : (b - a) / 60 with
  | zero => simp
  | succ m =>
      rw [List.chain'_range_succ]
      intro k _
      omega

/-- The grid has no duplicate hours. -/
theorem nodup_hourRange (a b : ℕ) : (hourRange a b).Nodup := by
  unfold hourRange
  exact List.Nodup.map (fun x y h => by omega) (List.nodup_range _)

/-- Membership in the grid between hour-aligned bounds is exactly
hour-alignment within the half-open interval. -/
theorem mem_hourRange (a b t : ℕ) (ha : a % 60 = 0) (hb : b % 60 = 0) :
    t ∈ hourRange a b ↔ (t % 60 = 0 ∧ a ≤ t ∧ t < b) := by
  unfold hourRange
  simp only [List.mem_map, List.mem_range]
  constructor
  · rintro ⟨k, hk, rfl⟩
    omega
  · rintro ⟨h1, h2, h3⟩
    exact ⟨(t - a) / 60, by omega, by omega⟩

/-- The cell id recorded in a built table is the group key. -/
theorem cellId_build (grid vocab : List ℕ) (atomic : List Atomic) (c : ℕ)
    (h : c ∈ atomic.map (fun a => a.cell)) :
    (build_features_for_cell grid vocab
      (atomic.filter (fun a => a.cell == c))).cellId = c := by
  rcases List.mem_map.mp h with ⟨a, ha, rfl⟩
  have hmem : a ∈ atomic.filter (fun a' => a'.cell == a.cell) :=
    List.mem_filter.mpr ⟨ha, by simp⟩
  have hne2 : atomic.filter (fun a' => a'.cell == a.cell) ≠ [] := by
    intro h0
    rw [h0] at hmem
    cases hmem
  have hh : (atomic.filter (fun a' => a'.cell == a.cell)).head?
      = some ((atomic.filter (fun a' => a'.cell == a.cell)).head hne2) :=
    List.head?_eq_head hne2
  have hhead : (atomic.filter (fun a' => a'.cell == a.cell)).head hne2
      ∈ atomic.filter (fun a' => a'.cell == a.cell) := List.head_mem hne2
  have hpx : ((atomic.filter (fun a' => a'.cell == a.cell)).head hne2).cell = a.cell := by
    simpa using List.of_mem_filter hhead
  show ((((atomic.filter (fun a' => a'.cell == a.cell)).head?).map
    (fun a' => a'.cell)).getD 0) = a.cell
  rw [hh]
  exact hpx

/-! ### Claim theorems -/

/-- C1 (counterexample): with span 6 over the spec's own 8-hour example
series, the sum-feature column of the built cell table contains null
entries — the first five rows have fewer than 6 rows available and are
null, not numeric partial-window values. -/
theorem c1_counterexample :
    ¬ (∀ x ∈ (build_features_for_cell gridEx [0] dfEx).colVals
          (Col.feat ⟨0, 6, FKind.sum⟩), x ≠ none) := by
  decide

/-- C1 (amended): for every per-cell aligned table, measurement type,
window span `s` and row `i` with at least `s` rows available
(`s ≤ i + 1`), the rolling sum feature at row `i` equals the sum of the
raw value over rows `i - s + 1 .. i`, and the rolling count feature
equals the number of those rows with value strictly greater than zero;
rows with fewer than `s` rows available are null, not partial. -/
theorem c1_rolling_window (grid : List ℕ) (vocab : List ℕ) (df : List Atomic)
    (mt span i : ℕ) (hspan : span ≤ i + 1) (hi : i < grid.length) :
    ((build_features_for_cell grid vocab df).colVals
        (Col.feat ⟨mt, span, FKind.sum⟩)).getD i none
      = some (∑ j ∈ Finset.Icc (i + 1 - span) i, (rawColumn df grid mt).getD j 0)
    ∧ ((build_features_for_cell grid vocab df).colVals
        (Col.feat ⟨mt, span, FKind.cnt⟩)).getD i none
      = some (((Finset.Icc (i + 1 - span) i).filter
          (fun j => 0 < (rawColumn df grid mt).getD j 0)).card : ℚ) := by
  have hlen : i < (rawColumn df grid mt).length := by
    rw [rawColumn_length]; exact hi
  constructor
  · rw [build_sum_col]
    exact rollingSum_getD span (rawColumn df grid mt) i hspan hlen
  · rw [build_cnt_col]
    exact rollingCount_getD span (rawColumn df grid mt) i hspan hlen

/-- C1 (witness): the spec's example instantiated — span 6 at hour 6 of
the series 0,0,3,0,0,0,2,0 gives window sum 5 over hours 1..6 and
presence count 2. -/
theorem c1_rolling_window_witness :
    ((build_features_for_cell gridEx [0] dfEx).colVals
        (Col.feat ⟨0, 6, FKind.sum⟩)).getD 6 none = some 5
    ∧ ((build_features_for_cell gridEx [0] dfEx).colVals
        (Col.feat ⟨0, 6, FKind.cnt⟩)).getD 6 none = some 2 := by
  have h := c1_rolling_window gridEx [0] dfEx 0 6 6 (by decide) (by decide)
  have hraw : rawColumn dfEx gridEx 0 = [0, 0, 3, 0, 0, 0, 2, 0] := by
    simp [rawColumn, gridEx, alignedVal, pivotVal, dfEx, alignedTs, pivotTs,
      sortAsc, insertAsc]
  constructor
  · rw [h.1, hraw]
    norm_num [Finset.sum_Icc_succ_top]
  · rw [h.2, hraw]
    norm_num
    decide

/-- C9 (counterexample): at row 0 of the example table, the span-6 sum
feature is null while the span-1 sum feature is numeric, so the
larger-span feature is not greater than or equal to the smaller-span one
at every row. -/
theorem c9_counterexample :
    ¬ (∃ a b : ℚ,
        ((build_features_for_cell gridEx [0] dfEx).colVals
            (Col.feat ⟨0, 6, FKind.sum⟩)).getD 0 none = some a
        ∧ ((build_features_for_cell gridEx [0] dfEx).colVals
            (Col.feat ⟨0, 1, FKind.sum⟩)).getD 0 none = some b
        ∧ b ≤ a) := by
  rintro ⟨a, b, h1, h2, h3⟩
  have h0 : ((build_features_for_cell gridEx [0] dfEx).colVals
      (Col.feat ⟨0, 6, FKind.sum⟩)).getD 0 none = none := by decide
  rw [h0] at h1
  exact Option.noConfusion h1

/-- C9 (amended): when all signal weights are non-negative and both
spans' windows are full at row `i` (`s ≤ i + 1`), the rolling sum for
the larger span is greater than or equal to the rolling sum for the
smaller span at the same row. -/
theorem c9_span_monotone (grid : List ℕ) (vocab : List ℕ) (df : List Atomic)
    (mt s s' i : ℕ) (hw : ∀ a ∈ df, 0 ≤ a.w) (hss : s' ≤ s)
    (hspan : s ≤ i + 1) (hi : i < grid.length) :
    ∃ a b : ℚ,
      ((build_features_for_cell grid vocab df).colVals
          (Col.feat ⟨mt, s, FKind.sum⟩)).getD i none = some a
      ∧ ((build_features_for_cell grid vocab df).colVals
          (Col.feat ⟨mt, s', FKind.sum⟩)).getD i none = some b
      ∧ b ≤ a := by
  have hlen : i < (rawColumn df grid mt).length := by
    rw [rawColumn_length]; exact hi
  refine ⟨∑ j ∈ Finset.Icc (i + 1 - s) i, (rawColumn df grid mt).getD j 0,
          ∑ j ∈ Finset.Icc (i + 1 - s') i, (rawColumn df grid mt).getD j 0,
          ?_, ?_, ?_⟩
  · rw [build_sum_col]
    exact rollingSum_getD s (rawColumn df grid mt) i hspan hlen
  · rw [build_sum_col]
    exact rollingSum_getD s' (rawColumn df grid mt) i (by omega) hlen
  · apply Finset.sum_le_sum_of_subset_of_nonneg
    · exact Finset.Icc_subset_Icc (by omega) (le_refl i)
    · intro j _ _
      exact getD_nonneg (rawColumn df grid mt) (rawColumn_nonneg df grid mt hw) j

/-- C3 (counterexample): with one atomic row in cell 0, the produced
table list covers cell 0 only — the zero-row cell 1 gets no table at all
(absent), not a full all-zero table. -/
theorem c3_counterexample :
    ((features_all_cells [60] [0] atomicEx3).map (fun t => t.cellId)) = [0]
    ∧ ¬ (∃ tbl ∈ features_all_cells [60] [0] atomicEx3, tbl.cellId = 1) := by
  constructor
  · rfl
  · rintro ⟨tbl, htbl, hid⟩
    have he : features_all_cells [60] [0] atomicEx3
        = [build_features_for_cell [60] [0]
            (atomicEx3.filter (fun a => a.cell == 0))] := rfl
    rw [he] at htbl
    rcases List.mem_singleton.mp htbl with rfl
    have h0 : (build_features_for_cell [60] [0]
        (atomicEx3.filter (fun a => a.cell == 0))).cellId = 0 := rfl
    rw [h0] at hid
    cases hid

/-- C3 (amended): every cell that appears in the atomic table produces
exactly one feature table; each produced table's timestamp column is
exactly the shared grid (hence |TimeGrid| rows), and on the pipeline's
global grid the timestamps are strictly ascending with no duplicates.
A cell with zero atomic rows produces no table. -/
theorem c3_row_invariants (grid vocab : List ℕ) (atomic : List Atomic) :
    ((features_all_cells grid vocab atomic).map (fun t => t.cellId))
      = (atomic.map (fun a => a.cell)).dedup
    ∧ (∀ tbl ∈ features_all_cells grid vocab atomic,
        tbl.timestamps = grid ∧ tbl.timestamps.length = grid.length)
    ∧ (∀ rows : List RawRow,
        List.Chain' (fun a b => a < b) (globalHourGrid rows)
        ∧ (globalHourGrid rows).Nodup) := by
  refine ⟨?_, ?_, ?_⟩
  · unfold features_all_cells
    rw [List.map_map]
    have : ∀ c ∈ (atomic.map (fun a => a.cell)).dedup,
        ((fun t : CellTable => t.cellId) ∘
          (fun c => build_features_for_cell grid vocab
            (atomic.filter (fun a => a.cell == c)))) c = id c := by
      intro c hc
      exact cellId_build grid vocab atomic c (List.mem_dedup.mp hc)
    rw [List.map_congr_left this, List.map_id]
  · intro tbl htbl
    unfold features_all_cells at htbl
    rcases List.mem_map.mp htbl with ⟨c, _, rfl⟩
    refine ⟨build_timestamps grid vocab _, ?_⟩
    rw [build_timestamps grid vocab _]
  · intro rows
    constructor
    · exact (chain'_hourRange _ _).imp (fun h => by omega)
    · exact nodup_hourRange _ _

/-- C3 (witness): on a one-row atomic table over a one-hour grid, the
produced table for cell 0 has the grid as its timestamp column. -/
theorem c3_row_invariants_witness :
    (build_features_for_cell [60] [0]
        (atomicEx3.filter (fun a => a.cell == 0))).timestamps = [60]
    ∧ ((build_features_for_cell [60] [0]
        (atomicEx3.filter (fun a => a.cell == 0))).timestamps).length = 1 :=
  (c3_row_invariants [60] [0] atomicEx3).2.1
    (build_features_for_cell [60] [0] (atomicEx3.filter (fun a => a.cell == 0)))
    (by exact List.mem_singleton.mpr rfl)

/-- C7: the global time grid consists of hour-aligned timestamps, is
contiguous (each successive entry is one hour later) and duplicate-free,
its members are exactly the aligned hours of
`[floorHour(min_ts), ceilHour(max_ts))`, and every cell's feature table
is aligned to this one shared grid. -/
theorem c7_time_grid (rows : List RawRow) (_hne : rows ≠ []) :
    (∀ t ∈ globalHourGrid rows, t % 60 = 0)
    ∧ List.Chain' (fun a b => b = a + 60) (globalHourGrid rows)
    ∧ (globalHourGrid rows).Nodup
    ∧ (∀ t, t ∈ globalHourGrid rows ↔
        (t % 60 = 0 ∧ floorHour (tsMin rows) ≤ t ∧ t < ceilHour (tsMax rows)))
    ∧ (∀ (vocab : List ℕ) (atomic : List Atomic) (tbl : CellTable),
        tbl ∈ features_all_cells (globalHourGrid rows) vocab atomic →
        tbl.timestamps = globalHourGrid rows) := by
  have hmem := mem_hourRange (floorHour (tsMin rows)) (ceilHour (tsMax rows))
  refine ⟨?_, chain'_hourRange _ _, nodup_hourRange _ _, ?_, ?_⟩
  · intro t ht
    exact ((hmem t (floorHour_mod _) (ceilHour_mod _)).mp ht).1
  · intro t
    exact hmem t (floorHour_mod _) (ceilHour_mod _)
  · intro vocab atomic tbl htbl
    unfold features_all_cells at htbl
    rcases List.mem_map.mp htbl with ⟨c, _, rfl⟩
    exact build_timestamps _ vocab _

/-- C7 (witness): for raw rows at minutes 30 and 90, hour 60 lies in the
grid spanning `[floorHour 30, ceilHour 90) = [0, 120)`. -/
theorem c7_time_grid_witness : 60 ∈ globalHourGrid rowsEx7 :=
  ((c7_time_grid rowsEx7 (by decide)).2.2.2.1 60).mpr (by decide)

/-- C9 (witness): spans 6 and 1 at row 6 of the example table, where the
weights are non-negative and both windows are full. -/
theorem c9_span_monotone_witness :
    ∃ a b : ℚ,
      ((build_features_for_cell gridEx [0] dfEx).colVals
          (Col.feat ⟨0, 6, FKind.sum⟩)).getD 6 none = some a
      ∧ ((build_features_for_cell gridEx [0] dfEx).colVals
          (Col.feat ⟨0, 1, FKind.sum⟩)).getD 6 none = some b
      ∧ b ≤ a :=
  c9_span_monotone gridEx [0] dfEx 0 6 1 6 (by decide) (by decide) (by decide) (by decide)

/-- C5: the Signal Resolver pairs every location candidate with every
measurement candidate of the same obs_id and emits the weight product;
on the spec's example — location candidates (cell 0, 3/5) and
(cell 1, 2/5) and measurement candidate (type 0, 1) for obs_id 7 — it
emits exactly the two expected atomic rows. -/
theorem c5_resolver_cross_product :
    (∀ (rows : List RawRow) (a : Atomic),
        a ∈ atomicTable rows ↔
        ∃ l m, l ∈ lf_loc rows ∧ m ∈ lf_meas rows ∧ m.obs = l.obs ∧ a = mkAtomic l m)
    ∧ atomicTable rowsEx5 = [⟨0, 60, some 0, 3/5⟩, ⟨1, 60, some 0, 2/5⟩] := by
  constructor
  · intro rows a
    unfold atomicTable
    rw [List.mem_dedup, List.mem_map]
    constructor
    · rintro ⟨p, hp, rfl⟩
      rcases (mem_joinedPairs rows p).mp hp with ⟨h1, h2, h3⟩
      exact ⟨p.1, p.2, h1, h2, h3, rfl⟩
    · rintro ⟨l, m, h1, h2, h3, rfl⟩
      exact ⟨(l, m), (mem_joinedPairs rows (l, m)).mpr ⟨h1, h2, h3⟩, rfl⟩
  · norm_num [atomicTable, joinedPairs, lf_loc, lf_meas, mkAtomic, truncHour, rowsEx5]

/-- C4 (counterexample): two location-candidate rows that differ only in
latitude produce two joined pairs whose atomic rows are exact duplicates;
the final unique() collapses them, so the cell/hour/type bucket holds
1/2 — not the pair-sum 1 that summing every duplicate would give. -/
theorem c4_counterexample :
    atomicTable rowsEx4 = [⟨0, 60, some 0, 1/2⟩]
    ∧ ((joinedPairs rowsEx4).map (fun p => (mkAtomic p.1 p.2).w)).sum = 1
    ∧ alignedVal ((atomicTable rowsEx4).filter (fun a => a.cell == 0)) 60 (some 0)
        ≠ ((joinedPairs rowsEx4).map (fun p => (mkAtomic p.1 p.2).w)).sum := by
  refine ⟨?_, ?_, ?_⟩
  · norm_num [atomicTable, joinedPairs, lf_loc, lf_meas, mkAtomic, truncHour, rowsEx4]
  · norm_num [joinedPairs, lf_loc, lf_meas, mkAtomic, truncHour, rowsEx4]
  · norm_num [atomicTable, joinedPairs, lf_loc, lf_meas, mkAtomic, truncHour, rowsEx4,
      alignedVal, pivotVal]

/-- C4 (amended): the cell/hour/type bucket value equals the sum of
signal_weight over the distinct atomic rows with that key — rows with
the same key but different weights are summed, never overwritten, while
exact duplicate atomic rows are collapsed to a single occurrence by the
final unique() before the pivot sums them. -/
theorem c4_duplicate_aggregation :
    (∀ (rows : List RawRow) (c t : ℕ) (ty : Option ℕ),
        alignedVal ((atomicTable rows).filter (fun a => a.cell == c)) t ty
          = (((atomicTable rows).filter
              (fun a => (a.ts == t && a.ty == ty) && a.cell == c)).map
                (fun a => a.w)).sum)
    ∧ (∀ rows : List RawRow, (atomicTable rows).Nodup) := by
  constructor
  · intro rows c t ty
    rw [alignedVal_eq_sum, List.filter_filter]
  · intro rows
    exact List.nodup_dedup _

/-- C6: a cell whose observed measurement types all lie in the global
vocabulary ends up with exactly the vocabulary-by-spans-by-kind feature
columns (plus the separately tracked timestamp and cell id), identical
for every such cell; vocabulary membership characterizes the feature
columns; and a vocabulary type the cell never observed has an all-zero
raw column before windowing. -/
theorem c6_column_contract (grid vocab : List ℕ) (df : List Atomic)
    (hty : ∀ a ∈ df, ∃ mt ∈ vocab, a.ty = some mt) :
    (build_features_for_cell grid vocab df).cols = (featColsFor vocab).map Col.feat
    ∧ (∀ f : FeatCol, f ∈ featColsFor vocab ↔ (f.mt ∈ vocab ∧ f.span ∈ WINDOWS))
    ∧ (∀ mt ∈ vocab, (∀ a ∈ df, a.ty ≠ some mt) →
        ∀ t, alignedVal df t (some mt) = 0) := by
  refine ⟨?_, ?_, ?_⟩
  · show finalCols vocab df = (featColsFor vocab).map Col.feat
    unfold finalCols
    have hnil : (completedCols vocab df).filter (fun ty =>
        match ty with
        | some mt => ! decide (mt ∈ vocab)
        | none => true) = [] := by
      rw [List.filter_eq_nil_iff]
      intro ty hty2
      unfold completedCols at hty2
      rcases List.mem_append.mp hty2 with h | h
      · unfold pivotCols at h
        rcases List.mem_map.mp (List.mem_dedup.mp h) with ⟨a, ha, rfl⟩
        rcases hty a ha with ⟨mt, hmt, heq⟩
        rw [heq]
        simp [hmt]
      · rcases List.mem_map.mp h with ⟨mt, hmt, rfl⟩
        have : mt ∈ vocab := List.mem_of_mem_filter hmt
        simp [this]
    rw [hnil]
    rfl
  · intro f
    unfold featColsFor
    rw [List.mem_flatMap]
    constructor
    · rintro ⟨s, hs, hf⟩
      rcases List.mem_append.mp hf with h | h <;>
        rcases List.mem_map.mp h with ⟨mt, hmt, rfl⟩ <;> exact ⟨hmt, hs⟩
    · rintro ⟨h1, h2⟩
      obtain ⟨mt, s, k⟩ := f
      refine ⟨s, h2, ?_⟩
      cases k
      · exact List.mem_append_left _ (List.mem_map.mpr ⟨mt, h1, rfl⟩)
      · exact List.mem_append_right _ (List.mem_map.mpr ⟨mt, h1, rfl⟩)
  · intro mt _ hnone t
    have hfil : df.filter (fun a => a.ts == t && a.ty == some mt) = [] := by
      rw [List.filter_eq_nil_iff]
      intro a ha hcond
      have : a.ty = some mt := by
        have := (Bool.and_eq_true _ _).mp hcond
        simpa using this.2
      exact hnone a ha this
    rw [alignedVal_eq_sum, hfil]
    rfl

/-- C6 (witness): a cell that observed only type 0 out of vocabulary
{0, 1} still gets the full vocabulary-complete feature column set. -/
theorem c6_column_contract_witness :
    (build_features_for_cell [0, 60] [0, 1] dfEx6).cols
        = (featColsFor [0, 1]).map Col.feat
    ∧ (∀ f : FeatCol, f ∈ featColsFor [0, 1] ↔ (f.mt ∈ [0, 1] ∧ f.span ∈ WINDOWS))
    ∧ (∀ mt ∈ [0, 1], (∀ a ∈ dfEx6, a.ty ≠ some mt) →
        ∀ t, alignedVal dfEx6 t (some mt) = 0) :=
  c6_column_contract [0, 60] [0, 1] dfEx6 (by decide)

end PolarsPipeline

namespace XgbStream

/-- The batch pass keeps exactly the cells whose time slice is non-empty,
one batch per kept cell, in cell-list order. -/
theorem batch_generator_eq (store : ℕ → List SRow) (cells : List ℕ) (s e : ℕ) :
    batch_generator store cells s e
      = (cells.filter (fun c => !(time_slice (store c) s e).isEmpty)).map
          (fun c => mkBatch (time_slice (store c) s e)) := by
  induction cells with
  | nil => rfl
  | cons c cs ih =>
      unfold batch_generator
      unfold batch_generator at ih
      rw [List.flatMap_cons, List.filter_cons]
      cases h : (time_slice (store c) s e).isEmpty with
      | true =>
          simp only [h, Bool.not_true, if_true, List.nil_append]
          simpa using ih
      | false =>
          simp only [h, Bool.not_false, Bool.false_eq_true, if_false, if_true,
            List.map_cons, List.singleton_append, ih]

/-- C2 (counterexample): with every cell's slice empty over [0, 10), the
pass completes normally with zero batches — the generator has no failure
path and raises no zero-batches error. -/
theorem c2_counterexample :
    batch_generator storeEmpty [0, 1] 0 10 = []
    ∧ (∀ c ∈ [0, 1], time_slice (storeEmpty c) 0 10 = []) := by
  constructor
  · rfl
  · decide

/-- C2 (amended): a cell whose time slice is empty is skipped without
producing a batch and without error; a pass yields zero batches exactly
when every cell's slice is empty (and then completes silently rather
than raising); and each cell with a non-empty slice contributes its
batch to the pass. -/
theorem c2_empty_slice_handling (store : ℕ → List SRow) (cells : List ℕ) (s e : ℕ) :
    batch_generator store cells s e
      = (cells.filter (fun c => !(time_slice (store c) s e).isEmpty)).map
          (fun c => mkBatch (time_slice (store c) s e))
    ∧ (batch_generator store cells s e = [] ↔
        ∀ c ∈ cells, time_slice (store c) s e = [])
    ∧ (∀ c ∈ cells, time_slice (store c) s e ≠ [] →
        mkBatch (time_slice (store c) s e) ∈ batch_generator store cells s e) := by
  have hgen := batch_generator_eq store cells s e
  refine ⟨hgen, ?_, ?_⟩
  · rw [hgen, List.map_eq_nil_iff, List.filter_eq_nil_iff]
    constructor
    · intro h c hc
      have := h c hc
      simpa [List.isEmpty_iff] using this
    · intro h c hc
      simp [List.isEmpty_iff, h c hc]
  · intro c hc hne
    rw [hgen]
    refine List.mem_map.mpr ⟨c, List.mem_filter.mpr ⟨hc, ?_⟩, rfl⟩
    simpa [List.isEmpty_iff] using hne

/-- C2 (witness): a store with one in-window row per cell yields cell 0's
batch in a one-cell pass. -/
theorem c2_empty_slice_handling_witness :
    mkBatch (time_slice (storeEx 0) 0 10) ∈ batch_generator storeEx [0] 0 10 :=
  (c2_empty_slice_handling storeEx [0] 0 10).2.2 0 (by decide) (by decide)

/-- Consuming the remaining cells step by step equals the generator over
those cells. -/
theorem passFrom_eq (store : ℕ → List SRow) (lo hi : ℕ) (cells : List ℕ) :
    passFrom store lo hi cells = batch_generator store cells lo hi := by
  induction cells with
  | nil => rfl
  | cons c cs ih =>
      unfold passFrom batch_generator
      unfold batch_generator at ih
      rw [List.flatMap_cons]
      cases h : (time_slice (store c) lo hi).isEmpty with
      | true =>
          simp only [h, Bool.false_eq_true, if_false, if_true, List.nil_append]
          simpa using ih
      | false =>
          simp only [h, Bool.false_eq_true, if_false, if_true, List.singleton_append]
          simpa using ih

/-- C8: batch delivery is deterministic across passes — a reset iterator
replays exactly the pass of a fresh iterator over the same cell list and
time window (same cells, same order, identical batch contents), and
stepping the iterator never changes the cell list or the window, so
every full consumption yields the same batch sequence. -/
theorem c8_deterministic_replay (store : ℕ → List SRow) (it : BatchIter) :
    runPass store (resetIter it) = batch_generator store it.cells it.lo it.hi
    ∧ runPass store (freshIter it.cells it.lo it.hi)
        = batch_generator store it.cells it.lo it.hi
    ∧ (∀ b it', nextBatch store it = some (b, it') →
        (it'.cells = it.cells ∧ it'.lo = it.lo ∧ it'.hi = it.hi)) := by
  refine ⟨passFrom_eq store it.lo it.hi it.cells, passFrom_eq store it.lo it.hi it.cells, ?_⟩
  intro b it' h
  unfold nextBatch at h
  cases hn : nextAux store it.lo it.hi it.remaining with
  | none =>
      rw [hn] at h
      cases h
  | some p =>
      rw [hn] at h
      have h2 : (p.1, { it with remaining := p.2 }) = (b, it') := by
        simpa using h
      have h3 : it' = { it with remaining := p.2 } := (congrArg Prod.snd h2).symm
      rw [h3]
      exact ⟨rfl, rfl, rfl⟩

/-- C8 (witness): resetting a partially consumed two-cell iterator
replays the full two-cell pass. -/
theorem c8_deterministic_replay_witness :
    runPass storeEx (resetIter iterEx)
      = batch_generator storeEx iterEx.cells iterEx.lo iterEx.hi :=
  (c8_deterministic_replay storeEx iterEx).1

end XgbStream

namespace Partitioner

/-- Folding records into the map appends, per key, exactly the records
with that key, in input order. -/
theorem partition_foldl (recs : List FlatRecord) :
    ∀ (m : ℕ × ℕ × ℕ × String → List FlatRecord) (k : ℕ × ℕ × ℕ × String),
      (recs.foldl pushRecord m) k
        = m k ++ recs.filter (fun r => decide (recKey r = k)) := by
  induction recs with
  | nil =>
      intro m k
      simp
  | cons r rs ih =>
      intro m k
      rw [List.foldl_cons, ih, List.filter_cons]
      unfold pushRecord
      by_cases h : recKey r = k
      · simp [h]
      · simp [h, Ne.symm h]

/-- C10: partitioning is total and partition-complete — each bucket is
exactly the input records with that key in input order, every record
lands in the bucket of its own key and in no other, multiplicities are
preserved (nothing dropped or duplicated), and missing year/month/day
fields group under 0 while a missing h3_cell groups under "unknown". -/
theorem c10_partition_total (records : List FlatRecord) :
    (∀ k, partition_records records k
        = records.filter (fun r => decide (recKey r = k)))
    ∧ (∀ r ∈ records, r ∈ partition_records records (recKey r))
    ∧ (∀ k r, r ∈ partition_records records k → (recKey r = k ∧ r ∈ records))
    ∧ (∀ (k : ℕ × ℕ × ℕ × String) (r : FlatRecord),
        (partition_records records k).count r
          = if recKey r = k then records.count r else 0)
    ∧ (∀ r : FlatRecord, r.year = none → (recKey r).1 = 0)
    ∧ (∀ r : FlatRecord, r.month = none → (recKey r).2.1 = 0)
    ∧ (∀ r : FlatRecord, r.day = none → (recKey r).2.2.1 = 0)
    ∧ (∀ r : FlatRecord, r.h3_cell = none → (recKey r).2.2.2 = "unknown") := by
  have hk : ∀ k, partition_records records k
      = records.filter (fun r => decide (recKey r = k)) := by
    intro k
    unfold partition_records
    rw [partition_foldl]
    simp
  refine ⟨hk, ?_, ?_, ?_, ?_, ?_, ?_, ?_⟩
  · intro r hr
    rw [hk]
    exact List.mem_filter.mpr ⟨hr, by simp⟩
  · intro k r hr
    rw [hk] at hr
    rcases List.mem_filter.mp hr with ⟨h1, h2⟩
    exact ⟨by simpa using h2, h1⟩
  · intro k r
    rw [hk]
    by_cases h : recKey r = k
    · rw [if_pos h]
      exact List.count_filter (by simpa using h)
    · rw [if_neg h]
      refine List.count_eq_zero.mpr ?_
      intro hmem
      exact h (by simpa using List.of_mem_filter hmem)
  · intro r h
    unfold recKey
    rw [h]
    rfl
  · intro r h
    unfold recKey
    rw [h]
    rfl
  · intro r h
    unfold recKey
    rw [h]
    rfl
  · intro r h
    unfold recKey
    rw [h]
    rfl

/-- C10 (witness): a record missing year, day and h3_cell lands in the
bucket of its defaulted key. -/
theorem c10_partition_total_witness :
    recEx ∈ partition_records [recEx] (recKey recEx) :=
  (c10_partition_total [recEx]).2.1 recEx (List.mem_singleton.mpr rfl)

end Partitioner
